import Mathlib

/- Verification of the GFPGAN architecture module (gfpgan/archs/gfpganv1_arch.py):
   a shallow embedding of StyleGAN2GeneratorSFT.forward, ConvUpLayer.__init__ and
   FacialComponentDiscriminator, with theorems about the specified properties.

   Modelling conventions:
   - tensor scalars are rationals (idealised floats);
   - a channel (`Chan`) is the flattened list of the scalars of one channel slice
     of a feature map (batch and spatial dimensions flattened together);
   - a feature map (`Feat`) is its list of channels (dim 1 of the torch tensor);
   - fallible Python code (indexing, shape-dependent control flow, unbound
     locals) is embedded in the Option monad: `none` is an exception;
   - the learned layers imported from basicsr (style convolutions, to-RGB
     layers, the style MLP) are opaque function parameters of the generator
     record, exactly as the forward pass treats them. -/

/-- One channel of a tensor: the flattened list of its scalar entries. -/
abbrev Chan := List ℚ

/-- A feature map: the list of its channels (dim 1 of the torch tensor). -/
abbrev Feat := List Chan

/-- A style vector (the last dimension of a style tensor). -/
abbrev SVec := List ℚ

/-- A 2-dimensional style tensor: batch list of style vectors. -/
abbrev Mat := List SVec

/-- The expanded latent tensor: batch list of per-layer style vectors.  -/
abbrev Latent := List (List SVec)

/-- A per-layer noise tensor, flattened. -/
abbrev NoiseT := List ℚ

/-- A style tensor as passed in the styles list: the source branches on
`styles[0].ndim < 3`, so the dynamic rank is embedded as a sum. -/
inductive STensor where
  | t2 (m : Mat)
  | t3 (t : List (List SVec))
  deriving DecidableEq

/-- Explicit bind on Option, used to sequence the fallible steps of the
forward passes (a `none` scrutinee aborts the call like a Python exception). -/
def obind : Option α → (α → Option β) → Option β
  | none, _ => none
  | some a, f => f a

/-- Fallible map over a list, left to right (a Python list comprehension
whose body may raise). -/
def omapM (f : α → Option β) : List α → Option (List β)
  | [] => some []
  | a :: as => obind (f a) (fun b => obind (omapM f as) (fun bs => some (b :: bs)))

/- ----------------------------------------------------------------- -/
/- ConvUpLayer.__init__ (gfpganv1_arch.py lines 149-181)             -/
/- ----------------------------------------------------------------- -/

/-- The activation object stored by ConvUpLayer.__init__: either the fused
leaky ReLU (which carries its own bias parameter) or the scaled leaky ReLU. -/
inductive ActKind where
  | fusedLeakyReLU
  | scaledLeakyReLU
  deriving DecidableEq

/-- The bias/activation configuration a ConvUpLayer ends up with. -/
structure ConvUpLayerState where
  bias : Option (List ℚ)
  activation : Option ActKind
  deriving DecidableEq

/-- ConvUpLayer.__init__, bias/activation wiring (lines 169-181).  The free
bias parameter is created only when `bias and not activate`; when `activate`
the activation is FusedLeakyReLU if `bias` else ScaledLeakyReLU(0.2).  The
result is an Option so that a raising constructor would be representable;
the source performs no validation, so every configuration returns `some`. -/
def convUpLayerInit (out_channels : Nat) (bias : Bool) (bias_init_val : ℚ)
    (activate : Bool) : Option ConvUpLayerState :=
  some
    ⟨if bias && !activate then some (List.replicate out_channels bias_init_val) else none,
     if activate then some (if bias then ActKind.fusedLeakyReLU else ActKind.scaledLeakyReLU)
     else none⟩

/- ----------------------------------------------------------------- -/
/- Style truncation (forward, lines 81-86)                           -/
/- ----------------------------------------------------------------- -/

/-- Elementwise `truncation_latent + truncation * (style - truncation_latent)`
on one style vector. -/
def vecTrunc (t : ℚ) (tlv sv : SVec) : SVec :=
  List.zipWith (fun c x => c + t * (x - c)) tlv sv

/-- vecTrunc applied along the batch dimension. -/
def matTrunc (t : ℚ) (tlm sm : Mat) : Mat :=
  List.zipWith (vecTrunc t) tlm sm

/-- The truncation arithmetic on a style tensor; mismatched ranks between the
truncation latent and the style do not broadcast and are an error. -/
def stTrunc (t : ℚ) : STensor → STensor → Option STensor
  | STensor.t2 a, STensor.t2 b => some (STensor.t2 (matTrunc t a b))
  | STensor.t3 a, STensor.t3 b => some (STensor.t3 (List.zipWith (matTrunc t) a b))
  | _, _ => none

/-- The style-truncation step of StyleGAN2GeneratorSFT.forward (lines 81-86):
only entered when `truncation < 1`; inside it `truncation_latent` is
dereferenced (a missing one is an error, as `None + tensor` raises). -/
def truncateStyles (truncation : ℚ) (truncation_latent : Option STensor)
    (styles : List STensor) : Option (List STensor) :=
  if truncation < 1 then
    match truncation_latent with
    | none => none
    | some c => omapM (stTrunc truncation c) styles
  else
    some styles

/- ----------------------------------------------------------------- -/
/- SFT modulation (forward, lines 113-121)                           -/
/- ----------------------------------------------------------------- -/

/-- Three-list zipWith, truncating at the shortest list. -/
def zipWith3 (f : α → β → γ → δ) : List α → List β → List γ → List δ
  | a :: as, b :: bs, c :: cs => f a b c :: zipWith3 f as bs cs
  | _, _, _ => []

/-- Elementwise `x * a + b` on one channel. -/
def chAffine (x a b : Chan) : Chan :=
  List.zipWith (· + ·) (List.zipWith (· * ·) x a) b

/-- Elementwise `x * scale + shift` on a feature map, channel by channel. -/
def featAffine (x scale shift : Feat) : Feat :=
  zipWith3 chAffine x scale shift

/-- The SFT step applied by the forward pass at a modulated level
(lines 116-121): in half mode `torch.split(out, out.size(1) // 2, dim=1)`
splits the channels at `out.size(1) // 2` (the two-way unpack that the source
performs is exact for the even channel counts the generator produces) and
only the second part is transformed; otherwise all channels are. -/
def sftApply (sft_half : Bool) (out scale shift : Feat) : Feat :=
  if sft_half then
    let half := out.length / 2
    out.take half ++ featAffine (out.drop half) scale shift
  else
    featAffine out scale shift

/-- The condition-application of one loop iteration (lines 113-121): at layer
index i, modulation happens only under the guard `i < len(conditions)`, with
`conditions[i - 1]` as the scale and `conditions[i]` as the shift; the
indexing itself is fallible. -/
def condStep (conds : List Feat) (sft_half : Bool) (i : Nat) (out : Feat) :
    Option Feat :=
  if i < conds.length then
    obind (conds.get? (i - 1)) (fun scale =>
    obind (conds.get? i) (fun shift =>
    some (sftApply sft_half out scale shift)))
  else
    some out

/- ----------------------------------------------------------------- -/
/- Latent expansion with injection (forward, lines 88-101)           -/
/- ----------------------------------------------------------------- -/

/-- The style MLP applied to a style tensor (line 74); the MLP itself is an
opaque map on the last dimension. -/
def mapStyle (mlp : SVec → SVec) : STensor → STensor
  | STensor.t2 m => STensor.t2 (m.map mlp)
  | STensor.t3 t => STensor.t3 (t.map (fun layerRow => layerRow.map mlp))

/-- The StyleGAN2GeneratorSFT, with the opaque learned sublayers inherited
from the base StyleGAN2Generator.  `num_layers` and `num_latent` are the base
class fields of those names; `style_convs`, `to_rgbs` and the noise buffers
`noises` are the base class module lists. -/
structure SFTGen where
  num_layers : Nat
  num_latent : Nat
  mlp : SVec → SVec
  constant_input : Nat → Feat
  style_conv1 : Feat → Mat → Option NoiseT → Feat
  to_rgb1 : Feat → Mat → Feat
  style_convs : List (Feat → Mat → Option NoiseT → Feat)
  to_rgbs : List (Feat → Mat → Feat → Feat)
  noises : List NoiseT
  sft_half : Bool

/-- Latent expansion (lines 88-101).  One style: inject_index is overwritten
with num_latent and a 2-dim style is repeated for all layers, a 3-dim one is
used as the latent directly.  Two styles: the injection index is the given
one, or `random.randint(1, num_latent - 1)` when absent — embedded as
`1 + rand % (num_latent - 1)`, which ranges over exactly the same inclusive
interval as the draw; each 2-dim style is then repeated and the two parts
concatenated along the layer axis (a repeat count below zero, or a 3-dim
style under `unsqueeze(1).repeat(1, k, 1)`, raises).  Zero or more than two
styles leave `latent` unassigned, so the first use raises
(UnboundLocalError): embedded as `none`.  Returns the latent and the
injection index that was used. -/
def latentExpand (g : SFTGen) (styles : List STensor) (inject_index : Option Nat)
    (rand : Nat) : Option (Latent × Nat) :=
  match styles with
  | [s] =>
    match s with
    | STensor.t2 m => some (m.map (fun row => List.replicate g.num_latent row), g.num_latent)
    | STensor.t3 t => some (t, g.num_latent)
  | [s1, s2] =>
    let idx := match inject_index with
      | some k => k
      | none => 1 + rand % (g.num_latent - 1)
    if g.num_latent < idx then none
    else
      match s1, s2 with
      | STensor.t2 m1, STensor.t2 m2 =>
        some (List.zipWith
          (fun r1 r2 => List.replicate idx r1 ++ List.replicate (g.num_latent - idx) r2)
          m1 m2, idx)
      | _, _ => none
  | _ => none

/- ----------------------------------------------------------------- -/
/- The synthesis loop and forward (lines 72-132)                     -/
/- ----------------------------------------------------------------- -/

/-- `latent[:, i]`: the i-th layer slice over the batch; out of range raises. -/
def latCol (latent : Latent) (i : Nat) : Option Mat :=
  omapM (fun row => row.get? i) latent

/-- Elements of a list at indices 0, 2, 4, ... (Python `l[::2]`). -/
def everyOther : List α → List α
  | [] => []
  | [a] => [a]
  | a :: _ :: rest => a :: everyOther rest

/-- Five-list zip, truncating at the shortest list, mirroring the `zip` of
the synthesis loop header (lines 109-110). -/
def zip5 (as : List α) (bs : List β) (cs : List γ) (ds : List δ) (es : List ε) :
    List (α × β × γ × δ × ε) :=
  as.zipWith (fun a r => (a, r))
    (bs.zipWith (fun b r => (b, r))
      (cs.zipWith (fun c r => (c, r)) (ds.zip es)))

/-- Noise resolution (lines 76-80): an explicit noise list is used as given;
otherwise `randomize_noise` selects fresh per-layer noise (`None` entries)
or the per-layer stored buffers `noise0 .. noise{num_layers-1}`. -/
def resolveNoise (g : SFTGen) (noise : Option (List (Option NoiseT)))
    (randomize_noise : Bool) : List (Option NoiseT) :=
  match noise with
  | some ns => ns
  | none =>
    if randomize_noise then List.replicate g.num_layers none
    else g.noises.map some

/-- One quintuple of the synthesis loop: conv1, conv2, noise1, noise2, to_rgb. -/
abbrev Quint := (Feat → Mat → Option NoiseT → Feat) × (Feat → Mat → Option NoiseT → Feat) ×
  Option NoiseT × Option NoiseT × (Feat → Mat → Feat → Feat)

/-- The paired style-conv loop of forward (lines 108-125), with the running
layer index i and a count of the to-RGB accumulations performed so far.  The
returned pair is the final skip image and the total to-RGB count. -/
def synthLoop (sh : Bool) (conds : List Feat) (lat : Latent) :
    List Quint → Feat → Feat → Nat → Nat → Option (Feat × Nat)
  | [], _, skip, _, cnt => some (skip, cnt)
  | (cv1, cv2, ns1, ns2, rgb) :: rest, out, skip, i, cnt =>
    obind (latCol lat i) (fun li =>
    obind (condStep conds sh i (cv1 out li ns1)) (fun outC =>
    obind (latCol lat (i + 1)) (fun li1 =>
    obind (latCol lat (i + 2)) (fun li2 =>
      let out2 := cv2 outC li1 ns2
      let skip2 := rgb out2 li2 skip
      synthLoop sh conds lat rest out2 skip2 (i + 2) (cnt + 1)))))

/-- StyleGAN2GeneratorSFT.forward (lines 49-132).  The result carries the
image, the optional returned latent, and the number of to-RGB accumulation
steps performed (the to_rgb1 application plus one per loop iteration). -/
def SFTGen.forward (g : SFTGen) (styles : List STensor) (conditions : List Feat)
    (input_is_latent : Bool) (noise : Option (List (Option NoiseT)))
    (randomize_noise : Bool) (truncation : ℚ) (truncation_latent : Option STensor)
    (inject_index : Option Nat) (return_latents : Bool) (rand : Nat) :
    Option (Feat × Option Latent × Nat) :=
  let styles2 := if input_is_latent then styles else styles.map (mapStyle g.mlp)
  let noise2 := resolveNoise g noise randomize_noise
  obind (truncateStyles truncation truncation_latent styles2) (fun styles3 =>
  obind (latentExpand g styles3 inject_index rand) (fun pl =>
  obind (latCol pl.1 0) (fun l0 =>
  obind (noise2.get? 0) (fun n0 =>
  obind (latCol pl.1 1) (fun l1 =>
    let out1 := g.style_conv1 (g.constant_input pl.1.length) l0 n0
    let skip := g.to_rgb1 out1 l1
    let quints := zip5 (everyOther g.style_convs) (everyOther (g.style_convs.drop 1))
      (everyOther (noise2.drop 1)) (everyOther (noise2.drop 2)) g.to_rgbs
    obind (synthLoop g.sft_half conditions pl.1 quints out1 skip 1 1) (fun res =>
    some (res.1, (if return_latents then some pl.1 else none), res.2)))))))

/- ----------------------------------------------------------------- -/
/- FacialComponentDiscriminator (lines 311-346)                      -/
/- ----------------------------------------------------------------- -/

/-- Modelled from the spec: basicsr's ConvLayer (imported, not in src/) is a
learned convolution block whose output has the configured out_channels
channels; downsampling only changes the spatial extent.  The learned
computation is the opaque `kernel`, one channel slice per output index. -/
structure ConvLayerM where
  in_channels : Nat
  out_channels : Nat
  downsample : Bool
  kernel : Feat → Nat → Chan

/-- Modelled from the spec: applying a ConvLayer to an input whose channel
count matches in_channels yields out_channels channels; a channel mismatch
raises. -/
def ConvLayerM.apply (c : ConvLayerM) (x : Feat) : Option Feat :=
  if x.length = c.in_channels then
    some ((List.range c.out_channels).map (c.kernel x))
  else none

/-- The FacialComponentDiscriminator module record (lines 316-324). -/
structure FacialComponentDiscriminator where
  conv1 : ConvLayerM
  conv2 : ConvLayerM
  conv3 : ConvLayerM
  conv4 : ConvLayerM
  conv5 : ConvLayerM
  final_conv : ConvLayerM

/-- FacialComponentDiscriminator.__init__ (lines 316-324): the fixed
VGG-style stack 3 -> 64 -> 128 -> 128 -> 256 -> 256 -> 1 with downsampling at
conv2 and conv4; the learned weights are the opaque kernels. -/
def facialComponentDiscriminatorInit (k1 k2 k3 k4 k5 kf : Feat → Nat → Chan) :
    FacialComponentDiscriminator :=
  ⟨⟨3, 64, false, k1⟩, ⟨64, 128, true, k2⟩, ⟨128, 128, false, k3⟩,
   ⟨128, 256, true, k4⟩, ⟨256, 256, false, k5⟩, ⟨256, 1, false, kf⟩⟩

/-- FacialComponentDiscriminator.forward (lines 326-346): feature chain with
the two optional capture points right after conv3 and after conv5. -/
def FacialComponentDiscriminator.forward (d : FacialComponentDiscriminator)
    (x : Feat) (return_feats : Bool) : Option (Feat × Option (List Feat)) :=
  obind (d.conv1.apply x) (fun f1 =>
  obind (d.conv2.apply f1) (fun f2 =>
  obind (d.conv3.apply f2) (fun feat =>
    let rlt_feats := if return_feats then [feat] else []
    obind (d.conv4.apply feat) (fun f4 =>
    obind (d.conv5.apply f4) (fun feat2 =>
      let rlt_feats2 := if return_feats then rlt_feats ++ [feat2] else rlt_feats
      obind (d.final_conv.apply feat2) (fun out =>
        if return_feats then some (out, some rlt_feats2) else some (out, none)))))))

/- ----------------------------------------------------------------- -/
/- Concrete instances for witnesses and counterexamples              -/
/- ----------------------------------------------------------------- -/

/-- A trivial style convolution, for concrete instantiations. -/
def idConv : Feat → Mat → Option NoiseT → Feat := fun o _ _ => o

/-- A trivial to-RGB layer, for concrete instantiations. -/
def idRGB : Feat → Mat → Feat → Feat := fun _ _ s => s

/-- A small concrete generator shaped like the base class built at
out_size 8 (log_size 3): num_layers = 3, num_latent = 4, two entries in
style_convs, one to-RGB layer, three stored noise buffers. -/
def g3 : SFTGen :=
  ⟨3, 4, id, fun _ => [], idConv, fun o _ => o, [idConv, idConv], [idRGB],
   [[], [], []], false⟩

/-- A concrete generator shaped like the base class built at out_size 32
(log_size 5): num_layers = 7, num_latent = 8. -/
def g7 : SFTGen :=
  ⟨7, 8, id, fun _ => [], idConv, fun o _ => o,
   List.replicate 6 idConv, List.replicate 3 idRGB,
   List.replicate 7 [], false⟩

/-- A trivial ConvLayer kernel, for concrete instantiations. -/
def zk : Feat → Nat → Chan := fun _ _ => []

/- ----------------------------------------------------------------- -/
/- Helper lemmas                                                     -/
/- ----------------------------------------------------------------- -/

theorem obind_some (a : α) (f : α → Option β) : obind (some a) f = f a := rfl

theorem obind_none (f : α → Option β) : obind (none : Option α) f = none := rfl

theorem list_getD_append_left (l1 l2 : List α) (d : α) :
    ∀ j, j < l1.length → (l1 ++ l2).getD j d = l1.getD j d := by
  induction l1 with
  | nil => intro j h; simp at h
  | cons a as ih =>
    intro j h
    cases j with
    | zero => rfl
    | succ j => simpa using ih j (by simpa using h)

theorem list_getD_append_right (l1 l2 : List α) (d : α) :
    ∀ j, l1.length ≤ j → (l1 ++ l2).getD j d = l2.getD (j - l1.length) d := by
  induction l1 with
  | nil => intro j _; simp
  | cons a as ih =>
    intro j h
    cases j with
    | zero => simp at h
    | succ j => simpa using ih j (by simpa using h)

theorem list_getD_take (l : List α) (d : α) :
    ∀ h j, j < h → (l.take h).getD j d = l.getD j d := by
  induction l with
  | nil => intro h j _; simp
  | cons a as ih =>
    intro h j hj
    cases h with
    | zero => omega
    | succ h =>
      cases j with
      | zero => rfl
      | succ j => simpa using ih h j (by omega)

theorem list_getD_drop (l : List α) (d : α) :
    ∀ h j, (l.drop h).getD j d = l.getD (h + j) d := by
  induction l with
  | nil => intro h j; simp
  | cons a as ih =>
    intro h j
    cases h with
    | zero => simp
    | succ h =>
      simp [Nat.succ_add, ih h j]

theorem list_getD_replicate (a d : α) :
    ∀ n j, j < n → (List.replicate n a).getD j d = a := by
  intro n
  induction n with
  | zero => intro j h; omega
  | succ n ih =>
    intro j h
    cases j with
    | zero => rfl
    | succ j => simpa [List.replicate] using ih j (by omega)

theorem list_getD_map (f : α → β) (l : List α) (d : β) (d2 : α) :
    ∀ j, j < l.length → (l.map f).getD j d = f (l.getD j d2) := by
  induction l with
  | nil => intro j h; simp at h
  | cons a as ih =>
    intro j h
    cases j with
    | zero => rfl
    | succ j => simpa using ih j (by simpa using h)

theorem list_getD_zipWith (f : α → β → γ) (d : γ) (d1 : α) (d2 : β) :
    ∀ (l1 : List α) (l2 : List β) (j : Nat), j < l1.length → j < l2.length →
      (List.zipWith f l1 l2).getD j d = f (l1.getD j d1) (l2.getD j d2)
  | a :: as, b :: bs, 0, _, _ => rfl
  | a :: as, b :: bs, j + 1, h1, h2 => by
    simpa using list_getD_zipWith f d d1 d2 as bs j (by simpa using h1) (by simpa using h2)
  | [], _, j, h1, _ => by simp at h1
  | _ :: _, [], j, _, h2 => by simp at h2

theorem list_get?_eq_some_getD (l : List α) (d : α) :
    ∀ j, j < l.length → l.get? j = some (l.getD j d) := by
  induction l with
  | nil => intro j h; simp at h
  | cons a as ih =>
    intro j h
    cases j with
    | zero => rfl
    | succ j => simpa using ih j (by simpa using h)

theorem zipWith3_length (f : α → β → γ → δ) :
    ∀ (a : List α) (b : List β) (c : List γ),
      (zipWith3 f a b c).length = min a.length (min b.length c.length)
  | x :: xs, y :: ys, z :: zs => by
    simp [zipWith3, zipWith3_length f xs ys zs]
    omega
  | [], b, c => by simp [zipWith3]
  | x :: xs, [], c => by simp [zipWith3]
  | x :: xs, y :: ys, [] => by simp [zipWith3]

theorem zipWith3_getD (f : α → β → γ → δ) (d1 : α) (d2 : β) (d3 : γ) (d : δ) :
    ∀ (a : List α) (b : List β) (c : List γ) (j : Nat),
      j < a.length → j < b.length → j < c.length →
      (zipWith3 f a b c).getD j d = f (a.getD j d1) (b.getD j d2) (c.getD j d3)
  | x :: xs, y :: ys, z :: zs, 0, _, _, _ => rfl
  | x :: xs, y :: ys, z :: zs, j + 1, h1, h2, h3 => by
    simpa [zipWith3] using zipWith3_getD f d1 d2 d3 d xs ys zs j
      (by simpa using h1) (by simpa using h2) (by simpa using h3)
  | [], _, _, j, h1, _, _ => by simp at h1
  | _ :: _, [], _, j, _, h2, _ => by simp at h2
  | _ :: _, _ :: _, [], j, _, _, h3 => by simp at h3

/- ----------------------------------------------------------------- -/
/- Claim theorems: C3, C8                                            -/
/- ----------------------------------------------------------------- -/

/-- C3 counterexample: constructing a ConvUpLayer with bias=True and
activate=True does NOT fail: __init__ performs no check and returns a layer
whose free bias parameter is absent and whose activation is the fused leaky
ReLU (which fuses the bias).  This refutes the claim that it is a
construction-time contract violation that fails fast. -/
theorem c03_counterexample :
    convUpLayerInit 64 true 0 true = some ⟨none, some ActKind.fusedLeakyReLU⟩ ∧
    convUpLayerInit 64 true 0 true ≠ none := by
  exact ⟨rfl, by decide⟩

/-- C3 amended: constructing a ConvUpLayer always succeeds; the free bias
parameter materializes exactly when bias=True and activate=False, and when
both bias and activate are requested the bias is fused into the
FusedLeakyReLU activation instead of failing. -/
theorem c03_bias_activation_amended (oc : Nat) (v : ℚ) (b a : Bool) :
    ∃ st : ConvUpLayerState, convUpLayerInit oc b v a = some st ∧
      (st.bias.isSome ↔ (b = true ∧ a = false)) ∧
      (b = true → a = true →
        st.bias = none ∧ st.activation = some ActKind.fusedLeakyReLU) := by
  cases b <;> cases a <;> exact ⟨_, rfl, by simp, by simp⟩

/-- C8: with the default truncation ratio 1 the truncation step of
StyleGAN2GeneratorSFT.forward is the identity on the styles, for every styles
list and whether or not a truncation latent is supplied. -/
theorem c08_truncation_one_identity (tl : Option STensor) (styles : List STensor) :
    truncateStyles 1 tl styles = some styles := by
  simp [truncateStyles]


/-- C2: at a modulated level of StyleGAN2GeneratorSFT.forward, the SFT step
with sft_half leaves the first half of the channels numerically unchanged and
transforms exactly the second half as out_sft * scale + shift; without
sft_half every channel is transformed as out * scale + shift.  The condition
tensors are assumed to have the channel counts the modulation consumes. -/
theorem c02_sft_half_frame (out : Feat) :
    (∀ scale shift : Feat,
      out.length % 2 = 0 →
      scale.length = out.length - out.length / 2 →
      shift.length = out.length - out.length / 2 →
      (sftApply true out scale shift).length = out.length ∧
      (∀ j, j < out.length / 2 →
        (sftApply true out scale shift).getD j [] = out.getD j []) ∧
      (∀ j, out.length / 2 ≤ j → j < out.length →
        (sftApply true out scale shift).getD j [] =
          chAffine (out.getD j []) (scale.getD (j - out.length / 2) [])
            (shift.getD (j - out.length / 2) []))) ∧
    (∀ scale shift : Feat,
      scale.length = out.length → shift.length = out.length →
      (sftApply false out scale shift).length = out.length ∧
      (∀ j, j < out.length →
        (sftApply false out scale shift).getD j [] =
          chAffine (out.getD j []) (scale.getD j []) (shift.getD j []))) := by
  have hT : ∀ scale shift : Feat, sftApply true out scale shift =
      out.take (out.length / 2) ++ featAffine (out.drop (out.length / 2)) scale shift := by
    intro scale shift; simp [sftApply]
  have hF : ∀ scale shift : Feat, sftApply false out scale shift =
      featAffine out scale shift := by
    intro scale shift; simp [sftApply]
  have hhalf : out.length / 2 ≤ out.length := Nat.div_le_self _ _
  have htakelen : (out.take (out.length / 2)).length = out.length / 2 := by
    simp [Nat.min_eq_left hhalf]
  have hdroplen : (out.drop (out.length / 2)).length = out.length - out.length / 2 := by
    simp
  constructor
  · intro scale shift heven hs hsh
    refine ⟨?_, ?_, ?_⟩
    · rw [hT, List.length_append, htakelen, featAffine, zipWith3_length,
        hdroplen, hs, hsh]
      omega
    · intro j hj
      rw [hT, list_getD_append_left _ _ _ j (by omega)]
      exact list_getD_take out [] _ j hj
    · intro j hj1 hj2
      have hidx : out.length / 2 + (j - out.length / 2) = j := by omega
      rw [hT, list_getD_append_right _ _ _ j (by omega), htakelen, featAffine,
        zipWith3_getD chAffine [] [] [] [] _ _ _ _ (by simp; omega)
          (by omega) (by omega),
        list_getD_drop out [] (out.length / 2) (j - out.length / 2), hidx]
  · intro scale shift hs hsh
    constructor
    · rw [hF, featAffine, zipWith3_length, hs, hsh]
      omega
    · intro j hj
      rw [hF, featAffine]
      exact zipWith3_getD chAffine [] [] [] [] _ _ _ j (by omega) (by omega) (by omega)

/-- C2 witness: a concrete two-channel feature map.  In half mode channel 0
is untouched and channel 1 becomes 2*3+4 = 10; in full mode channel 0 becomes
1*3+4 = 7. -/
theorem c02_sft_half_frame_witness :
    (sftApply true [[1], [2]] [[3]] [[4]]).getD 0 [] = [(1 : ℚ)] ∧
    (sftApply true [[1], [2]] [[3]] [[4]]).getD 1 [] = [(10 : ℚ)] ∧
    (sftApply false [[1], [2]] [[3], [5]] [[4], [6]]).getD 0 [] = [(7 : ℚ)] := by
  refine ⟨?_, ?_, ?_⟩
  · exact (((c02_sft_half_frame [[1], [2]]).1 [[3]] [[4]] (by decide) (by decide)
      (by decide)).2.1 0 (by decide)).trans (by decide)
  · exact (((c02_sft_half_frame [[1], [2]]).1 [[3]] [[4]] (by decide) (by decide)
      (by decide)).2.2 1 (by decide) (by decide)).trans
      (by simp [chAffine]; norm_num)
  · exact (((c02_sft_half_frame [[1], [2]]).2 [[3], [5]] [[4], [6]] (by decide)
      (by decide)).2 0 (by decide)).trans
      (by simp [chAffine]; norm_num)

/-- C10: the forward pass consumes `conditions` as one flat list.  At a loop
level with odd layer index i, modulation happens exactly when
i < len(conditions), in which case conditions[i-1] is the scale and
conditions[i] is the shift of the SFT step; otherwise the features pass
through unmodified, so a trailing entry at an even list position alone never
triggers modulation. -/
theorem c10_flat_condition_list (conds : List Feat) (sh : Bool) (i : Nat)
    (out : Feat) (hodd : i % 2 = 1) :
    (i < conds.length →
      condStep conds sh i out =
        some (sftApply sh out (conds.getD (i - 1) []) (conds.getD i []))) ∧
    (conds.length ≤ i → condStep conds sh i out = some out) := by
  constructor
  · intro h
    rw [condStep, if_pos h]
    rw [list_get?_eq_some_getD conds [] (i - 1) (by omega), obind_some]
    rw [list_get?_eq_some_getD conds [] i h, obind_some]
  · intro h
    rw [condStep, if_neg (by omega)]

/-- C10 witness: with two condition entries and layer index 1 the step
multiplies by conditions[0] and adds conditions[1] (4*2+3 = 11); with a
single entry the guard 1 < 1 fails and the features pass through. -/
theorem c10_flat_condition_list_witness :
    condStep [[[2]], [[3]]] false 1 [[4]] = some [[(11 : ℚ)]] ∧
    condStep [[[2]]] false 1 [[4]] = some [[(4 : ℚ)]] := by
  constructor
  · exact ((c10_flat_condition_list [[[2]], [[3]]] false 1 [[4]] (by decide)).1
      (by decide)).trans
      (by simp [sftApply, featAffine, zipWith3, chAffine]; norm_num)
  · exact (c10_flat_condition_list [[[2]]] false 1 [[4]] (by decide)).2 (by decide)

/-- C5: for a single 2-dimensional style, latent expansion in
StyleGAN2GeneratorSFT.forward produces a latent whose layer axis has length
num_latent for every batch element, with every layer slice equal to the
MLP-mapped style: pure repetition. -/
theorem c05_single_style_repeat (g : SFTGen) (m : Mat) (ii : Option Nat) (r : Nat) :
    ∃ lat, latentExpand g ([STensor.t2 m].map (mapStyle g.mlp)) ii r
        = some (lat, g.num_latent) ∧
      lat.length = m.length ∧
      ∀ b, b < m.length →
        (lat.getD b []).length = g.num_latent ∧
        ∀ j, j < g.num_latent → (lat.getD b []).getD j [] = g.mlp (m.getD b []) := by
  refine ⟨(m.map g.mlp).map (fun row => List.replicate g.num_latent row), rfl,
    by simp, ?_⟩
  intro b hb
  have hb2 : b < (m.map g.mlp).length := by simpa using hb
  constructor
  · rw [list_getD_map _ _ _ [] b hb2]
    simp
  · intro j hj
    rw [list_getD_map _ _ _ [] b hb2, list_getD_replicate _ _ _ j hj,
      list_getD_map _ _ _ [] b hb]

/-- C5 witness: the small concrete generator, one style of batch 1; the
expanded latent has 4 = num_latent identical layer slices. -/
theorem c05_single_style_repeat_witness :
    (0 : Nat) < ([[(1 : ℚ), 2]] : Mat).length ∧
    ∃ lat, latentExpand g3 ([STensor.t2 [[(1 : ℚ), 2]]].map (mapStyle g3.mlp)) none 0
        = some (lat, g3.num_latent) ∧
      lat.length = 1 ∧ (lat.getD 0 []).length = g3.num_latent ∧
      (lat.getD 0 []).getD 3 [] = g3.mlp [(1 : ℚ), 2] := by
  refine ⟨by decide, ?_⟩
  obtain ⟨lat, h1, h2, h3⟩ := c05_single_style_repeat g3 [[(1 : ℚ), 2]] none 0
  obtain ⟨hlen, hrep⟩ := h3 0 (by decide)
  exact ⟨lat, h1, by simpa using h2, hlen, by simpa using hrep 3 (by decide)⟩

/-- C6: for exactly two 2-dimensional styles and a fixed inject_index k with
1 <= k <= num_latent - 1, the expanded latent equals the first style's mapped
latent at every layer in [0, k) and the second style's mapped latent at every
layer in [k, num_latent), for every batch element. -/
theorem c06_two_style_mixing (g : SFTGen) (m1 m2 : Mat) (k r : Nat)
    (hk1 : 1 ≤ k) (hk2 : k ≤ g.num_latent - 1) (hb : m1.length = m2.length) :
    ∃ lat, latentExpand g ([STensor.t2 m1, STensor.t2 m2].map (mapStyle g.mlp))
        (some k) r = some (lat, k) ∧
      lat.length = m1.length ∧
      ∀ b, b < m1.length →
        (lat.getD b []).length = g.num_latent ∧
        (∀ j, j < k → (lat.getD b []).getD j [] = g.mlp (m1.getD b [])) ∧
        (∀ j, k ≤ j → j < g.num_latent →
          (lat.getD b []).getD j [] = g.mlp (m2.getD b [])) := by
  have hn2 : 2 ≤ g.num_latent := by omega
  have hguard : ¬ g.num_latent < k := by omega
  have hdef : latentExpand g ([STensor.t2 m1, STensor.t2 m2].map (mapStyle g.mlp))
      (some k) r =
      if g.num_latent < k then none
      else some (List.zipWith
        (fun r1 r2 => List.replicate k r1 ++ List.replicate (g.num_latent - k) r2)
        (m1.map g.mlp) (m2.map g.mlp), k) := rfl
  refine ⟨List.zipWith
      (fun r1 r2 => List.replicate k r1 ++ List.replicate (g.num_latent - k) r2)
      (m1.map g.mlp) (m2.map g.mlp), by rw [hdef, if_neg hguard], by simp [hb], ?_⟩
  intro b hbb
  have h1 : b < (m1.map g.mlp).length := by simpa using hbb
  have h2 : b < (m2.map g.mlp).length := by simpa using hb ▸ hbb
  rw [list_getD_zipWith _ [] [] [] _ _ b h1 h2,
    list_getD_map _ _ _ [] b hbb, list_getD_map _ _ _ [] b (hb ▸ hbb)]
  refine ⟨by simp; omega, ?_, ?_⟩
  · intro j hj
    rw [list_getD_append_left _ _ _ j (by simpa using hj),
      list_getD_replicate _ _ _ j hj]
  · intro j hj1 hj2
    rw [list_getD_append_right _ _ _ j (by simpa using hj1), List.length_replicate,
      list_getD_replicate _ _ _ (j - k) (by omega)]

/-- C6 witness: the concrete generator with num_latent 4 and k = 2: layers
0-1 carry the first style, layers 2-3 the second. -/
theorem c06_two_style_mixing_witness :
    ∃ lat, latentExpand g3
        ([STensor.t2 [[(1 : ℚ)]], STensor.t2 [[(2 : ℚ)]]].map (mapStyle g3.mlp))
        (some 2) 0 = some (lat, 2) ∧
      lat.length = 1 ∧ (lat.getD 0 []).length = g3.num_latent ∧
      (lat.getD 0 []).getD 1 [] = g3.mlp [(1 : ℚ)] ∧
      (lat.getD 0 []).getD 3 [] = g3.mlp [(2 : ℚ)] := by
  obtain ⟨lat, h1, h2, h3⟩ := c06_two_style_mixing g3 [[(1 : ℚ)]] [[(2 : ℚ)]] 2 0
    (by decide) (by decide) (by decide)
  obtain ⟨hlen, hfst, hsnd⟩ := h3 0 (by decide)
  exact ⟨lat, h1, by simpa using h2, hlen, by simpa using hfst 1 (by decide),
    by simpa using hsnd 3 (by decide) (by decide)⟩

/-- C7 counterexample: in the concrete generator shaped like out_size 32
(num_layers = 7, num_latent = 8), the draw `random.randint(1, num_latent-1)`
can produce the injection index 7 = num_layers, which is outside the claimed
range [1, num_layers - 1] = [1, 6]. -/
theorem c07_counterexample :
    latentExpand g7 [STensor.t2 [[(1 : ℚ)]], STensor.t2 [[(0 : ℚ)]]] none 6
      = some ([List.replicate 7 [(1 : ℚ)] ++ [[(0 : ℚ)]]], 7) ∧
    ¬ (7 ≤ g7.num_layers - 1) := by
  exact ⟨rfl, by decide⟩

/-- C7 amended: when two styles are supplied and inject_index is absent, the
randomly chosen injection index lies in [1, num_latent - 1] (inclusive; with
the base-class relation num_latent = num_layers + 1 this is [1, num_layers],
not [1, num_layers - 1]) for every possible outcome of the draw. -/
theorem c07_inject_range_amended (g : SFTGen) (m1 m2 : Mat) (r : Nat)
    (h2 : 2 ≤ g.num_latent) :
    ∃ lat idx, latentExpand g [STensor.t2 m1, STensor.t2 m2] none r
        = some (lat, idx) ∧ 1 ≤ idx ∧ idx ≤ g.num_latent - 1 := by
  have hmod : r % (g.num_latent - 1) < g.num_latent - 1 := Nat.mod_lt _ (by omega)
  have hguard : ¬ g.num_latent < 1 + r % (g.num_latent - 1) := by omega
  have hdef : latentExpand g [STensor.t2 m1, STensor.t2 m2] none r =
      if g.num_latent < 1 + r % (g.num_latent - 1) then none
      else some (List.zipWith
        (fun r1 r2 => List.replicate (1 + r % (g.num_latent - 1)) r1 ++
          List.replicate (g.num_latent - (1 + r % (g.num_latent - 1))) r2)
        m1 m2, 1 + r % (g.num_latent - 1)) := rfl
  refine ⟨List.zipWith
      (fun r1 r2 => List.replicate (1 + r % (g.num_latent - 1)) r1 ++
        List.replicate (g.num_latent - (1 + r % (g.num_latent - 1))) r2) m1 m2,
    1 + r % (g.num_latent - 1), ?_, by omega, by omega⟩
  rw [hdef, if_neg hguard]

/-- C7 amended witness: the concrete generator with num_latent 4 and draw
seed 5 yields index 1 + 5 % 3 = 3, inside [1, 3]. -/
theorem c07_inject_range_amended_witness :
    ∃ lat idx, latentExpand g3 [STensor.t2 [[(1 : ℚ)]], STensor.t2 [[(2 : ℚ)]]] none 5
        = some (lat, idx) ∧ 1 ≤ idx ∧ idx ≤ g3.num_latent - 1 :=
  c07_inject_range_amended g3 [[(1 : ℚ)]] [[(2 : ℚ)]] 5 (by decide)


/-- C9: with return_feats, FacialComponentDiscriminator.forward returns
exactly two intermediate feature tensors: the first captured immediately
after conv3 with 128 channels, the second immediately after conv5 with 256
channels, for every input image with the 3 input channels and any learned
weights. -/
theorem c09_discriminator_feats (k1 k2 k3 k4 k5 kf : Feat → Nat → Chan)
    (x : Feat) (hx : x.length = 3) :
    ∃ out fA fB,
      FacialComponentDiscriminator.forward
        (facialComponentDiscriminatorInit k1 k2 k3 k4 k5 kf) x true
        = some (out, some [fA, fB]) ∧
      fA.length = 128 ∧ fB.length = 256 ∧
      obind (obind ((facialComponentDiscriminatorInit k1 k2 k3 k4 k5 kf).conv1.apply x)
          (facialComponentDiscriminatorInit k1 k2 k3 k4 k5 kf).conv2.apply)
        (facialComponentDiscriminatorInit k1 k2 k3 k4 k5 kf).conv3.apply = some fA ∧
      obind (obind (some fA)
          (facialComponentDiscriminatorInit k1 k2 k3 k4 k5 kf).conv4.apply)
        (facialComponentDiscriminatorInit k1 k2 k3 k4 k5 kf).conv5.apply = some fB := by
  refine ⟨(List.range 1).map (kf ((List.range 256).map (k5 ((List.range 256).map
      (k4 ((List.range 128).map (k3 ((List.range 128).map (k2 ((List.range 64).map (k1 x))))))))))),
    (List.range 128).map (k3 ((List.range 128).map (k2 ((List.range 64).map (k1 x))))),
    (List.range 256).map (k5 ((List.range 256).map (k4 ((List.range 128).map
      (k3 ((List.range 128).map (k2 ((List.range 64).map (k1 x))))))))),
    ?_, by simp, by simp, ?_, ?_⟩
  · simp [FacialComponentDiscriminator.forward, ConvLayerM.apply,
      facialComponentDiscriminatorInit, obind, hx]
  · simp [ConvLayerM.apply, facialComponentDiscriminatorInit, obind, hx]
  · simp [ConvLayerM.apply, facialComponentDiscriminatorInit, obind]

/-- C9 witness: trivial kernels and a three-channel input; the two returned
features have 128 and 256 channels. -/
theorem c09_discriminator_feats_witness :
    ∃ out fA fB,
      FacialComponentDiscriminator.forward
        (facialComponentDiscriminatorInit zk zk zk zk zk zk) [[], [], []] true
        = some (out, some [fA, fB]) ∧
      fA.length = 128 ∧ fB.length = 256 ∧
      obind (obind ((facialComponentDiscriminatorInit zk zk zk zk zk zk).conv1.apply
          [[], [], []])
          (facialComponentDiscriminatorInit zk zk zk zk zk zk).conv2.apply)
        (facialComponentDiscriminatorInit zk zk zk zk zk zk).conv3.apply = some fA ∧
      obind (obind (some fA)
          (facialComponentDiscriminatorInit zk zk zk zk zk zk).conv4.apply)
        (facialComponentDiscriminatorInit zk zk zk zk zk zk).conv5.apply = some fB :=
  c09_discriminator_feats zk zk zk zk zk zk [[], [], []] (by decide)

theorem omapM_some_length (f : α → Option β) :
    ∀ (l : List α) (l2 : List β), omapM f l = some l2 → l2.length = l.length := by
  intro l
  induction l with
  | nil =>
    intro l2 h
    simp [omapM] at h
    simp [← h]
  | cons a as ih =>
    intro l2 h
    cases hfa : f a with
    | none => rw [omapM, hfa, obind_none] at h; exact absurd h (by simp)
    | some b =>
      cases has : omapM f as with
      | none => rw [omapM, hfa, obind_some, has, obind_none] at h; exact absurd h (by simp)
      | some bs =>
        rw [omapM, hfa, obind_some, has, obind_some] at h
        have hb : b :: bs = l2 := by injection h
        rw [← hb]
        simp [ih bs has]

theorem truncateStyles_some_length (t : ℚ) (tl : Option STensor)
    (s s2 : List STensor) (h : truncateStyles t tl s = some s2) :
    s2.length = s.length := by
  unfold truncateStyles at h
  by_cases ht : t < 1
  · rw [if_pos ht] at h
    match tl with
    | none => exact absurd h (by simp)
    | some c => exact omapM_some_length _ s s2 h
  · rw [if_neg ht] at h
    have h2 : s = s2 := by injection h
    rw [← h2]

theorem latentExpand_big (g : SFTGen) (ii : Option Nat) (r : Nat) :
    ∀ (styles : List STensor), 2 < styles.length →
      latentExpand g styles ii r = none := by
  intro styles h
  match styles with
  | [] => simp at h
  | [a] => simp at h
  | [a, b] => simp at h
  | a :: b :: c :: rest => rfl

/-- C4: calling StyleGAN2GeneratorSFT.forward with more than two styles
fails: neither arity branch of the latent expansion assigns `latent`, so the
call raises at its first use (in Python an UnboundLocalError) instead of
producing an image. -/
theorem c04_more_than_two_styles (g : SFTGen) (styles : List STensor)
    (conds : List Feat) (il rn rl : Bool) (noise : Option (List (Option NoiseT)))
    (tq : ℚ) (tl : Option STensor) (ii : Option Nat) (r : Nat)
    (h : 2 < styles.length) :
    SFTGen.forward g styles conds il noise rn tq tl ii rl r = none := by
  simp only [SFTGen.forward]
  have hlen2 : 2 < (if il then styles else styles.map (mapStyle g.mlp)).length := by
    cases il <;> simpa using h
  cases htr : truncateStyles tq tl (if il then styles else styles.map (mapStyle g.mlp)) with
  | none => exact obind_none _
  | some s3 =>
    rw [obind_some]
    have h3 : 2 < s3.length := by
      rw [truncateStyles_some_length tq tl _ s3 htr]
      exact hlen2
    rw [latentExpand_big g ii r s3 h3]
    exact obind_none _

/-- C4 witness: three styles on the concrete generator abort the call. -/
theorem c04_more_than_two_styles_witness :
    SFTGen.forward g3 [STensor.t2 [[(1 : ℚ)]], STensor.t2 [[(1 : ℚ)]],
      STensor.t2 [[(1 : ℚ)]]] [] false none true 1 none none false 0 = none :=
  c04_more_than_two_styles g3 _ [] false true false none 1 none none 0 (by decide)

theorem truncateStyles_one (tl : Option STensor) (s : List STensor) :
    truncateStyles 1 tl s = some s := by
  simp [truncateStyles]

theorem everyOther_length : ∀ (l : List α), (everyOther l).length = (l.length + 1) / 2
  | [] => by simp [everyOther]
  | [a] => by simp [everyOther]
  | a :: b :: rest => by
    simp [everyOther, everyOther_length rest]
    omega

theorem zip5_length (as : List α) (bs : List β) (cs : List γ) (ds : List δ)
    (es : List ε) :
    (zip5 as bs cs ds es).length =
      min as.length (min bs.length (min cs.length (min ds.length es.length))) := by
  simp [zip5]

theorem latCol_ok : ∀ (lat : Latent) (i : Nat),
    (∀ row ∈ lat, i < row.length) → ∃ s, latCol lat i = some s := by
  intro lat
  induction lat with
  | nil => intro i h; exact ⟨[], rfl⟩
  | cons row rest ih =>
    intro i h
    obtain ⟨s, hs⟩ := ih i (fun q hq => h q (by simp [hq]))
    have hrow : i < row.length := h row (by simp)
    refine ⟨row.getD i [] :: s, ?_⟩
    rw [latCol, omapM, list_get?_eq_some_getD row [] i hrow, obind_some]
    rw [latCol] at hs
    rw [hs, obind_some]

theorem condStep_some (conds : List Feat) (sh : Bool) (i : Nat) (out : Feat) :
    ∃ o, condStep conds sh i out = some o := by
  by_cases h : i < conds.length
  · refine ⟨sftApply sh out (conds.getD (i - 1) []) (conds.getD i []), ?_⟩
    rw [condStep, if_pos h, list_get?_eq_some_getD conds [] (i - 1) (by omega),
      obind_some, list_get?_eq_some_getD conds [] i h, obind_some]
  · exact ⟨out, by rw [condStep, if_neg h]⟩

theorem synthLoop_ok (sh : Bool) (conds : List Feat) (lat : Latent) (n : Nat)
    (hrow : ∀ row ∈ lat, n ≤ row.length) :
    ∀ (q : List Quint) (i cnt : Nat) (out skip : Feat), i + 2 * q.length < n →
      ∃ img, synthLoop sh conds lat q out skip i cnt = some (img, cnt + q.length) := by
  intro q
  induction q with
  | nil => intro i cnt out skip h; exact ⟨skip, by simp [synthLoop]⟩
  | cons quint rest ih =>
    obtain ⟨cv1, cv2, ns1, ns2, rgb⟩ := quint
    intro i cnt out skip h
    simp only [List.length_cons] at h
    have hbound : ∀ j, j ≤ i + 2 → ∀ row ∈ lat, j < row.length := by
      intro j hj row hr
      have := hrow row hr
      omega
    obtain ⟨li, hli⟩ := latCol_ok lat i (hbound i (by omega))
    obtain ⟨oc, hoc⟩ := condStep_some conds sh i (cv1 out li ns1)
    obtain ⟨li1, hli1⟩ := latCol_ok lat (i + 1) (hbound (i + 1) (by omega))
    obtain ⟨li2, hli2⟩ := latCol_ok lat (i + 2) (hbound (i + 2) (by omega))
    obtain ⟨img, himg⟩ := ih (i + 2) (cnt + 1) (cv2 oc li1 ns2)
      (rgb (cv2 oc li1 ns2) li2 skip) (by omega)
    have hc : cnt + 1 + rest.length = cnt + (rest.length + 1) := by omega
    rw [hc] at himg
    refine ⟨img, ?_⟩
    rw [synthLoop, hli, obind_some, hoc, obind_some, hli1, obind_some, hli2,
      obind_some]
    exact himg

theorem forall_mem_zipWith (f : α → β → γ) (P : γ → Prop) (h : ∀ x y, P (f x y)) :
    ∀ (l1 : List α) (l2 : List β), ∀ c ∈ List.zipWith f l1 l2, P c := by
  intro l1
  induction l1 with
  | nil => intro l2 c hc; simp at hc
  | cons a as ih =>
    intro l2 c hc
    cases l2 with
    | nil => simp at hc
    | cons b bs =>
      rw [List.zipWith_cons_cons] at hc
      rcases List.mem_cons.mp hc with h1 | h2
      · rw [h1]; exact h a b
      · exact ih bs c h2

theorem forward_rgb_count (g : SFTGen) (styles : List STensor) (conds : List Feat)
    (il rn rl : Bool) (tl : Option STensor) (ii : Option Nat) (r : Nat)
    (latent : Latent) (idx : Nat)
    (hL : g.num_layers % 2 = 1)
    (hsc : g.style_convs.length = g.num_layers - 1)
    (htr : g.to_rgbs.length = (g.num_layers - 1) / 2)
    (hns : g.noises.length = g.num_layers)
    (hnl : g.num_latent = g.num_layers + 1)
    (hexp : latentExpand g (if il then styles else styles.map (mapStyle g.mlp)) ii r
      = some (latent, idx))
    (hrows : ∀ row ∈ latent, g.num_latent ≤ row.length) :
    ∃ img lat2, SFTGen.forward g styles conds il none rn 1 tl ii rl r
      = some (img, lat2, (g.num_layers - 1) / 2 + 1) := by
  have hL1 : 1 ≤ g.num_layers := by omega
  have hnlen : (resolveNoise g none rn).length = g.num_layers := by
    cases rn <;> simp [resolveNoise, hns]
  obtain ⟨l0, hl0⟩ := latCol_ok latent 0 (fun row hr => by
    have := hrows row hr; omega)
  obtain ⟨l1, hl1⟩ := latCol_ok latent 1 (fun row hr => by
    have := hrows row hr; omega)
  have hn0 : (resolveNoise g none rn).get? 0
      = some ((resolveNoise g none rn).getD 0 none) :=
    list_get?_eq_some_getD _ none 0 (by rw [hnlen]; omega)
  have hq : (zip5 (everyOther g.style_convs) (everyOther (g.style_convs.drop 1))
      (everyOther ((resolveNoise g none rn).drop 1))
      (everyOther ((resolveNoise g none rn).drop 2)) g.to_rgbs).length
      = (g.num_layers - 1) / 2 := by
    simp only [zip5_length, everyOther_length, List.length_drop, hsc, htr, hnlen]
    omega
  obtain ⟨img, himg⟩ := synthLoop_ok g.sft_half conds latent g.num_latent hrows
    (zip5 (everyOther g.style_convs) (everyOther (g.style_convs.drop 1))
      (everyOther ((resolveNoise g none rn).drop 1))
      (everyOther ((resolveNoise g none rn).drop 2)) g.to_rgbs)
    1 1
    (g.style_conv1 (g.constant_input latent.length) l0
      ((resolveNoise g none rn).getD 0 none))
    (g.to_rgb1 (g.style_conv1 (g.constant_input latent.length) l0
      ((resolveNoise g none rn).getD 0 none)) l1)
    (by rw [hq]; omega)
  rw [hq] at himg
  have hcnt : 1 + (g.num_layers - 1) / 2 = (g.num_layers - 1) / 2 + 1 := by omega
  rw [hcnt] at himg
  refine ⟨img, if rl then some latent else none, ?_⟩
  simp only [SFTGen.forward]
  rw [truncateStyles_one, obind_some, hexp, obind_some]
  simp only
  rw [hl0, obind_some, hn0, obind_some, hl1, obind_some, himg, obind_some]

/-- C1: for a valid styles input (one or two 2-dim styles) and ANY list of
conditions, the forward pass succeeds and performs exactly
(num_layers-1)/2 + 1 to-RGB accumulation steps (to_rgb1 plus one per paired
loop iteration); in particular fewer conditions than levels never raises.
The structural hypotheses are the shapes the base StyleGAN2Generator
constructor guarantees: an odd num_layers, num_layers - 1 paired style
convolutions, (num_layers-1)/2 to-RGB layers, num_layers noise buffers, and
num_latent = num_layers + 1. -/
theorem c01_to_rgb_step_count (g : SFTGen) (m m1 m2 : Mat) (conds : List Feat)
    (il rn rl : Bool) (tl : Option STensor) (ii : Option Nat) (r : Nat)
    (hL : g.num_layers % 2 = 1)
    (hsc : g.style_convs.length = g.num_layers - 1)
    (htr : g.to_rgbs.length = (g.num_layers - 1) / 2)
    (hns : g.noises.length = g.num_layers)
    (hnl : g.num_latent = g.num_layers + 1) :
    (∃ img lat2, SFTGen.forward g [STensor.t2 m] conds il none rn 1 tl ii rl r
      = some (img, lat2, (g.num_layers - 1) / 2 + 1)) ∧
    (∃ img lat2, SFTGen.forward g [STensor.t2 m1, STensor.t2 m2] conds il none rn
        1 tl none rl r
      = some (img, lat2, (g.num_layers - 1) / 2 + 1)) := by
  have hL1 : 1 ≤ g.num_layers := by omega
  have hrows1 : ∀ (mm : Mat),
      ∀ row ∈ mm.map (fun row => List.replicate g.num_latent row),
        g.num_latent ≤ row.length := by
    intro mm row hr
    obtain ⟨r0, hr0, hfr⟩ := List.mem_map.mp hr
    rw [← hfr]
    simp
  have hrows2 : ∀ (ma mb : Mat) (k : Nat), k ≤ g.num_latent →
      ∀ row ∈ List.zipWith
        (fun r1 r2 => List.replicate k r1 ++ List.replicate (g.num_latent - k) r2)
        ma mb, g.num_latent ≤ row.length := by
    intro ma mb k hk
    refine forall_mem_zipWith _ _ ?_ ma mb
    intro x y
    simp
    omega
  have hmod : r % (g.num_latent - 1) < g.num_latent - 1 := Nat.mod_lt _ (by omega)
  have hguard : ¬ g.num_latent < 1 + r % (g.num_latent - 1) := by omega
  constructor
  · cases il with
    | false =>
      exact forward_rgb_count g [STensor.t2 m] conds false rn rl tl ii r
        ((m.map g.mlp).map (fun row => List.replicate g.num_latent row))
        g.num_latent hL hsc htr hns hnl rfl (hrows1 (m.map g.mlp))
    | true =>
      exact forward_rgb_count g [STensor.t2 m] conds true rn rl tl ii r
        (m.map (fun row => List.replicate g.num_latent row))
        g.num_latent hL hsc htr hns hnl rfl (hrows1 m)
  · cases il with
    | false =>
      refine forward_rgb_count g [STensor.t2 m1, STensor.t2 m2] conds false rn rl tl
        none r
        (List.zipWith (fun r1 r2 => List.replicate (1 + r % (g.num_latent - 1)) r1 ++
          List.replicate (g.num_latent - (1 + r % (g.num_latent - 1))) r2)
          (m1.map g.mlp) (m2.map g.mlp))
        (1 + r % (g.num_latent - 1)) hL hsc htr hns hnl ?_
        (hrows2 (m1.map g.mlp) (m2.map g.mlp) (1 + r % (g.num_latent - 1)) (by omega))
      show latentExpand g [STensor.t2 (m1.map g.mlp), STensor.t2 (m2.map g.mlp)]
        none r = _
      rw [show latentExpand g [STensor.t2 (m1.map g.mlp), STensor.t2 (m2.map g.mlp)]
          none r =
        if g.num_latent < 1 + r % (g.num_latent - 1) then none
        else some (List.zipWith
          (fun r1 r2 => List.replicate (1 + r % (g.num_latent - 1)) r1 ++
            List.replicate (g.num_latent - (1 + r % (g.num_latent - 1))) r2)
          (m1.map g.mlp) (m2.map g.mlp), 1 + r % (g.num_latent - 1)) from rfl,
        if_neg hguard]
    | true =>
      refine forward_rgb_count g [STensor.t2 m1, STensor.t2 m2] conds true rn rl tl
        none r
        (List.zipWith (fun r1 r2 => List.replicate (1 + r % (g.num_latent - 1)) r1 ++
          List.replicate (g.num_latent - (1 + r % (g.num_latent - 1))) r2) m1 m2)
        (1 + r % (g.num_latent - 1)) hL hsc htr hns hnl ?_
        (hrows2 m1 m2 (1 + r % (g.num_latent - 1)) (by omega))
      show latentExpand g [STensor.t2 m1, STensor.t2 m2] none r = _
      rw [show latentExpand g [STensor.t2 m1, STensor.t2 m2] none r =
        if g.num_latent < 1 + r % (g.num_latent - 1) then none
        else some (List.zipWith
          (fun r1 r2 => List.replicate (1 + r % (g.num_latent - 1)) r1 ++
            List.replicate (g.num_latent - (1 + r % (g.num_latent - 1))) r2)
          m1 m2, 1 + r % (g.num_latent - 1)) from rfl,
        if_neg hguard]

/-- C1 witness: the concrete generator with num_layers = 3 and a single
condition entry performs (3-1)/2 + 1 = 2 to-RGB steps for one style and for
two styles alike. -/
theorem c01_to_rgb_step_count_witness :
    (g3.num_layers % 2 = 1 ∧ g3.style_convs.length = g3.num_layers - 1 ∧
      g3.to_rgbs.length = (g3.num_layers - 1) / 2 ∧
      g3.noises.length = g3.num_layers ∧ g3.num_latent = g3.num_layers + 1) ∧
    (∃ img lat2, SFTGen.forward g3 [STensor.t2 [[(1 : ℚ)]]] [[[5]]] false none true
        1 none none false 0 = some (img, lat2, (g3.num_layers - 1) / 2 + 1)) ∧
    (∃ img lat2, SFTGen.forward g3 [STensor.t2 [[(1 : ℚ)]], STensor.t2 [[(2 : ℚ)]]]
        [[[5]]] false none true 1 none none false 0
      = some (img, lat2, (g3.num_layers - 1) / 2 + 1)) := by
  refine ⟨⟨by decide, by decide, by decide, by decide, by decide⟩, ?_, ?_⟩
  · exact (c01_to_rgb_step_count g3 [[(1 : ℚ)]] [[(1 : ℚ)]] [[(2 : ℚ)]] [[[5]]]
      false true false none none 0 (by decide) (by decide) (by decide) (by decide)
      (by decide)).1
  · exact (c01_to_rgb_step_count g3 [[(1 : ℚ)]] [[(1 : ℚ)]] [[(2 : ℚ)]] [[[5]]]
      false true false none none 0 (by decide) (by decide) (by decide) (by decide)
      (by decide)).2
